import Mathlib

/-!
A shallow embedding of `src/readline.c`, the Lua binding around the GNU
readline library, with proofs about its completion bridge, its SIGINT
handling during the blocking read, and its name accessors.

Modelling conventions:
* C strings are `List Char` (no interior NUL byte).
* The Lua registry slots keyed by `REGISTRY_KEY_GENERATOR` and
  `REGISTRY_KEY_ITERATOR`, together with a counter of host-callable
  invocations, form `CompState`; the SIGINT disposition and the counters of
  the two native cleanup calls form `SigState`.
* The native readline library is the external collaborator.  Its completion
  driver calls `gen_function` with state 0 and then with increasing nonzero
  states until the NULL sentinel comes back; its blocking read is described
  by a `ReadEvent` saying what happened while the call was in flight.
-/

/-- C strings, modelled as lists of characters. -/
abbrev Str := List Char

/-- The candidate filter inside `lua_iterstep`:
`rlen >= len && strncmp(pref, res, len) == 0`, where `len` is the length of
the current word and `res` the candidate string. -/
def candMatch (pfx res : Str) : Bool :=
  decide (pfx.length ≤ res.length) && decide (res.take pfx.length = pfx)

/-- One step of the Lua `ipairs` iterator over the array part of a table
holding the strings `entries`.  The control value `key` counts the entries
already produced, so the step yields the entry at 1-based position `key + 1`
or nil past the end of the array. -/
def ipairsAux (entries : List Str) (key : Nat) : Option (Nat × Str) :=
  match entries.get? key with
  | some v => some (key + 1, v)
  | none => none

/-- The skip loop of `lua_iterstep`: repeatedly pull the next entry through
the `ipairs` iterator, stop at the first entry passing `candMatch` or at the
end of the table.  The loop advances the key by one per round, so
`entries.length + 1` rounds always suffice from any starting key; `fuel`
bounds the rounds only to keep the recursion structural, and every caller
passes at least that bound. -/
def iterStepAux (fuel : Nat) (entries : List Str) (pfx : Str) (key : Nat) :
    Option (Nat × Str) :=
  match fuel with
  | 0 => none
  | f + 1 =>
    match ipairsAux entries key with
    | none => none
    | some (k, v) =>
      if candMatch pfx v then some (k, v)
      else iterStepAux f entries pfx k

/-- One invocation of the `lua_iterstep` closure.  Upvalue 3 holds the last
control value returned by the `ipairs` iterator; it becomes `none` once the
iteration has finished and nil was stored.  The driver never re-invokes the
closure after it has returned nil, so the `none` branch is unreachable in
every modelled run. -/
def lua_iterstep (entries : List Str) (pfx : Str) (key : Option Nat) :
    Option Str × Option Nat :=
  match key with
  | none => (none, none)
  | some k =>
    match iterStepAux (entries.length + 1) entries pfx k with
    | none => (none, none)
    | some (k2, v) => (some v, some k2)

/-- The value `lua_readline` stores in the registry at
`REGISTRY_KEY_GENERATOR`, according to the `lua_type` of its second
argument.  A host generator function is modelled by the finite list of
strings the iterator it returns will yield (for a given word) before
yielding nil. -/
inductive GenSlot where
  | hostFn (f : Str → List Str)
  | ipairsClosure (entries : List Str)
  | nilIter

/-- The value `lua_initgenerator` stores at `REGISTRY_KEY_ITERATOR`: the
iterator closure returned by the generator.  A host iterator records the
strings it has still to yield and the number of invocations it has already
absorbed; the table iterator is the `lua_iterstep` closure; `returnNil` is
the `lua_returnnil` C function produced by `lua_niliterator`. -/
inductive Iter where
  | hostIter (outs : List Str) (pos : Nat)
  | stepIter (entries : List Str) (pfx : Str) (key : Option Nat)
  | returnNil
deriving DecidableEq

/-- The registry slots of the completion bridge plus a counter of
host-callable invocations (calls of Lua functions supplied by the host; the
C helpers and the `ipairs` builtin do not count). -/
structure CompState where
  genSlot : Option GenSlot
  iterSlot : Option Iter
  hostCalls : Nat

/-- One call of an iterator closure.  Returns the produced value (`none`
for nil), the updated closure, and how many host-callable invocations the
call performed. -/
def callIter : Iter → Option Str × Iter × Nat
  | .hostIter outs pos => (outs.get? pos, .hostIter outs (pos + 1), 1)
  | .stepIter entries pfx key =>
    match lua_iterstep entries pfx key with
    | (r, key2) => (r, .stepIter entries pfx key2, 0)
  | .returnNil => (none, .returnNil, 0)

/-- Body of `lua_stepgenerator`: fetch the iterator stored at
`REGISTRY_KEY_ITERATOR`, call it once, and hand nil back as the NULL
sentinel.  An empty slot is unreachable in the modelled flows, because the
driver only runs between `lua_initgenerator` and the end of the read. -/
def lua_stepgenerator (c : CompState) : Option Str × CompState :=
  match c.iterSlot with
  | none => (none, c)
  | some it =>
    match callIter it with
    | (r, it2, d) => (r, { c with iterSlot := some it2, hostCalls := c.hostCalls + d })

/-- Calling the stored generator with the current word: the iterator closure
it returns, and how many host invocations that took.  A host generator is
one host call; the table case wraps the table in the `lua_iterstep` closure
with initial control value 0 (from `ipairs`); the nil generator returns the
`lua_returnnil` iterator. -/
def mkIterator (g : GenSlot) (text : Str) : Iter × Nat :=
  match g with
  | .hostFn f => (.hostIter (f text) 0, 1)
  | .ipairsClosure entries => (.stepIter entries text (some 0), 0)
  | .nilIter => (.returnNil, 0)

/-- Body of `lua_initgenerator`: call the generator stored at
`REGISTRY_KEY_GENERATOR` with the current word and store the iterator it
returns at `REGISTRY_KEY_ITERATOR`.  An empty generator slot is unreachable
in the modelled flows, because `lua_readline` always stores a generator
before pointing readline at `gen_function`. -/
def lua_initgenerator (text : Str) (c : CompState) : CompState :=
  match c.genSlot with
  | none => c
  | some g =>
    match mkIterator g text with
    | (it, d) => { c with iterSlot := some it, hostCalls := c.hostCalls + d }

/-- The completion entry function handed to readline (`gen_function`): when
`state` is 0 it first initializes the iterator, then it performs one
iterator step. -/
def gen_function (text : Str) (state : Nat) (c : CompState) : Option Str × CompState :=
  let c2 := if state = 0 then lua_initgenerator text c else c
  lua_stepgenerator c2

/-- An upper bound on how many more times the native driver can call the
stored iterator before the iterator yields nil. -/
def iterBudget : Option Iter → Nat
  | some (.hostIter outs _) => outs.length + 2
  | some (.stepIter entries _ _) => entries.length + 2
  | some .returnNil => 1
  | none => 1

/-- The tail of the native completion driver: keep calling the stored
iterator (`gen_function` with nonzero state is exactly `lua_stepgenerator`)
until it returns the NULL sentinel, collecting the candidates.  The `fuel`
bound keeps the recursion structural; every caller passes at least the
`iterBudget` of the current iterator, which always suffices. -/
def stepLoopF : Nat → CompState → List Str × CompState
  | 0, c => ([], c)
  | f + 1, c =>
    match lua_stepgenerator c with
    | (none, c2) => ([], c2)
    | (some v, c2) =>
      match stepLoopF f c2 with
      | (rest, c3) => (v :: rest, c3)

/-- One full completion generation as readline drives it: `gen_function`
with state 0, then repeated calls with increasing nonzero states until the
NULL sentinel comes back. -/
def runGeneration (text : Str) (c : CompState) : List Str × CompState :=
  match gen_function text 0 c with
  | (none, c1) => ([], c1)
  | (some v, c1) =>
    match stepLoopF (iterBudget c1.iterSlot) c1 with
    | (rest, c2) => (v :: rest, c2)

/-- The completion generations performed while one blocking read is in
flight: one generation per word the user asked to complete. -/
def runTabs (tabs : List Str) (c : CompState) : CompState :=
  tabs.foldl (fun st t => (runGeneration t st).2) c

/-- A SIGINT disposition, as installed and returned by `signal`. -/
inductive Disp where
  | sigDfl
  | sigIgn
  | sigErr
  | readlineSigint
  | custom (id : Nat)
deriving DecidableEq

/-- The signal-side globals: the current SIGINT disposition, counters of the
calls to `rl_free_line_state` and `rl_cleanup_after_signal`, and the log of
invocations of saved handlers as (handler, signal number) pairs. -/
structure SigState where
  disposition : Disp
  freeLineStateCalls : Nat
  cleanupAfterSignalCalls : Nat
  handlerCalls : List (Disp × Nat)
deriving DecidableEq

/-- All process-wide state the binding touches: the completion registry
slots, the signal state, whether `rl_completion_entry_function` points at
`gen_function`, and whether `globalL` holds the current `lua_State`. -/
structure GlobalState where
  comp : CompState
  sig : SigState
  entryFunctionSet : Bool
  globalLSet : Bool

/-- A Lua value that is neither a function nor a table. -/
inductive OtherVal where
  | nilVal
  | strVal (s : Str)
  | numVal (n : Int)
  | boolVal (b : Bool)
deriving DecidableEq

/-- The second argument of `readline`, as discriminated by `lua_type`. -/
inductive LuaArg where
  | fn (f : Str → List Str)
  | table (entries : List Str)
  | other (v : OtherVal)

/-- The switch at the top of `lua_readline`: which generator value is stored
in the registry for a given second argument. -/
def installGenerator : LuaArg → GenSlot
  | .fn f => .hostFn f
  | .table entries => .ipairsClosure entries
  | .other _ => .nilIter

/-- What happened while the blocking `readline(prompt)` call was in flight.
`tabs` lists the words for which the completion driver ran a full
generation before the call ended.  `interrupted` means SIGINT number `sig`
was delivered and the handler transferred control back into `lua_readline`
through `siglongjmp`.  `hostError` means a host completion callable raised a
Lua error, which `lua_call` propagates to the enclosing protected call.
Reachability constraint: only a function argument installs a host callable
(the table path runs `ipairs` and C closures over string entries, the
default path installs only C functions), so a `hostError` event can arise
in a real execution only when the completion-source argument is a
function; every concrete run considered below pairs `hostError` with a
function argument only. -/
inductive ReadEvent where
  | normal (tabs : List Str) (line : Option Str) (eof : Bool)
  | interrupted (tabs : List Str) (sig : Nat)
  | hostError (tabs : List Str)

/-- The outcome of `readline(...)` as the Lua caller observes it: the first
returned value (`none` both for nil and for zero returned values), or a Lua
error propagating out of the call. -/
inductive ReadOutcome where
  | result (line : Option Str)
  | luaError
deriving DecidableEq

/-- Behaviour of `lua_pushstring`: pushes nil when handed a NULL pointer,
otherwise the string itself. -/
def lua_pushstring : Option Str → Option Str
  | none => none
  | some s => some s

/-- Body of `lua_readline`: store the generator in the registry, point
readline at `gen_function`, set `globalL`, install `readline_sigint` saving
the previous disposition, run the blocking read (whose fate `ev` gives),
and perform the C code's cleanup of each exit path.  On the `hostError`
path the Lua error unwinds past the rest of the function, so no restore
runs. -/
def lua_readline (arg : LuaArg) (ev : ReadEvent) (g : GlobalState) :
    ReadOutcome × GlobalState :=
  let g1 := { g with
    comp := { g.comp with genSlot := some (installGenerator arg) },
    entryFunctionSet := true, globalLSet := true }
  let old := g1.sig.disposition
  let g2 := { g1 with sig := { g1.sig with disposition := .readlineSigint } }
  match ev with
  | .interrupted tabs sig =>
    let g3 := { g2 with comp := runTabs tabs g2.comp }
    -- siglongjmp(globalEnv, sig): sigsetjmp returns sig, or 1 when sig = 0
    let rsig := if sig = 0 then 1 else sig
    let g4 := { g3 with sig := { g3.sig with
      freeLineStateCalls := g3.sig.freeLineStateCalls + 1,
      cleanupAfterSignalCalls := g3.sig.cleanupAfterSignalCalls + 1,
      disposition := old } }
    let g5 :=
      if old ≠ Disp.sigDfl ∧ old ≠ Disp.sigErr ∧ old ≠ Disp.sigIgn then
        { g4 with sig := { g4.sig with
          handlerCalls := g4.sig.handlerCalls ++ [(old, rsig)] } }
      else g4
    (.result none, g5)
  | .normal tabs line eof =>
    let g3 := { g2 with comp := runTabs tabs g2.comp }
    let g4 := { g3 with sig := { g3.sig with disposition := old } }
    match line with
    | none =>
      if eof then (.result none, g4)
      else (.result (lua_pushstring none), g4)
    | some l => (.result (lua_pushstring (some l)), g4)
  | .hostError tabs =>
    let g3 := { g2 with comp := runTabs tabs g2.comp }
    (.luaError, g3)

/-- Heap state of the name accessors: the allocated blocks as
(address, contents) pairs, the next fresh address, and the
`rl_readline_name` pointer (`none` models NULL). -/
structure NameState where
  heap : List (Nat × Str)
  nextAddr : Nat
  rl_readline_name : Option Nat
deriving DecidableEq

/-- Reading a heap block through a pointer. -/
def heapGet (st : NameState) (p : Nat) : Option Str :=
  (st.heap.find? (fun q => q.1 == p)).map (fun q => q.2)

/-- Effect of `free` on a heap block. -/
def heapFree (st : NameState) (p : Nat) : NameState :=
  { st with heap := st.heap.filter (fun q => !(q.1 == p)) }

/-- Outcome of a C computation that may write through a NULL pointer. -/
inductive CrashOr (α : Type) where
  | ok (a : α)
  | nullDeref

/-- Body of `clonestr`: `malloc(strlen(s)+1)`, then `strlcpy` into the fresh
block.  When `malloc` returns NULL, `strlcpy(NULL, s, strlen(s)+1)` writes
at least the terminating NUL through the null pointer, so the function
crashes instead of returning NULL.  `allocOk` says whether the allocation
succeeds. -/
def clonestr (s : Str) (allocOk : Bool) (st : NameState) : CrashOr (Nat × NameState) :=
  if allocOk then
    .ok (st.nextAddr,
      { st with heap := st.heap ++ [(st.nextAddr, s)], nextAddr := st.nextAddr + 1 })
  else
    .nullDeref

/-- Possible outcomes of `lua_setname` for the host. -/
inductive SetNameResult where
  | ok
  | luaError
  | crash
deriving DecidableEq

/-- Body of `lua_setname`: free the previous name block, clone the new name,
store the pointer, and raise "Out of memory" if the stored pointer is NULL.
The error branch is unreachable, because `clonestr` crashes rather than
returning NULL when the allocation fails. -/
def lua_setname (name : Str) (allocOk : Bool) (st : NameState) :
    SetNameResult × NameState :=
  let st1 := match st.rl_readline_name with
    | some p => heapFree st p
    | none => st
  match clonestr name allocOk st1 with
  | .nullDeref => (.crash, st1)
  | .ok (addr, st2) =>
    let st3 := { st2 with rl_readline_name := some addr }
    match st3.rl_readline_name with
    | none => (.luaError, st3)
    | some _ => (.ok, st3)

/-- Body of `lua_getname`: push `rl_readline_name` (nil when NULL). -/
def lua_getname (st : NameState) : Option Str :=
  match st.rl_readline_name with
  | none => none
  | some p => heapGet st p

/-- Well-formed name state: every allocated address lies below `nextAddr`. -/
def heapWF (st : NameState) : Prop :=
  ∀ q ∈ st.heap, q.1 < st.nextAddr

example : (runGeneration ['a'] ⟨some (.ipairsClosure [['a','b'],['x'],['a']]), none, 0⟩).1
    = [['a','b'],['a']] := by decide

example : (runGeneration ['p'] ⟨some (.hostFn (fun _ => [['x'],['y']])), none, 0⟩).1
    = [['x'],['y']] := by rfl

example : (runGeneration ['p'] ⟨some .nilIter, none, 0⟩).1 = [] := by rfl

theorem get_some_lt {α : Type} : ∀ (l : List α) (n : Nat) (v : α),
    l.get? n = some v → n < l.length
  | _ :: t, 0, _, _ => Nat.succ_pos t.length
  | _ :: t, n + 1, v, h => Nat.succ_lt_succ (get_some_lt t n v h)
  | [], _, _, h => Option.noConfusion h

theorem drop_of_get {α : Type} : ∀ (l : List α) (n : Nat) (v : α),
    l.get? n = some v → l.drop n = v :: l.drop (n + 1)
  | a :: t, 0, v, h => by
    have hav : a = v := by simpa using h
    simp [hav]
  | a :: t, n + 1, v, h => by
    simpa using drop_of_get t n v h
  | [], _, _, h => Option.noConfusion h

theorem get_none_le {α : Type} : ∀ (l : List α) (n : Nat),
    l.get? n = none → l.length ≤ n
  | [], n, _ => Nat.zero_le n
  | _ :: t, n + 1, h => Nat.succ_le_succ (get_none_le t n h)
  | _ :: _, 0, h => Option.noConfusion h

theorem iterStepAux_spec (entries : List Str) (pfx : Str) :
    ∀ fuel key, entries.length + 1 - key ≤ fuel →
      (match iterStepAux fuel entries pfx key with
       | none => (entries.drop key).filter (fun v => candMatch pfx v) = []
       | some (k2, v) =>
           key < k2 ∧ k2 ≤ entries.length ∧
           (entries.drop key).filter (fun v => candMatch pfx v) =
             v :: (entries.drop k2).filter (fun v => candMatch pfx v)) := by
  intro fuel
  induction fuel with
  | zero =>
    intro key hk
    simp only [iterStepAux]
    rw [List.drop_of_length_le (by omega)]
    simp
  | succ f ih =>
    intro key hk
    rcases hv : entries.get? key with _ | v
    · have hlen := get_none_le entries key hv
      simp only [iterStepAux, ipairsAux, hv]
      rw [List.drop_of_length_le hlen]
      simp
    · have hlt := get_some_lt entries key v hv
      have hdrop := drop_of_get entries key v hv
      simp only [iterStepAux, ipairsAux, hv]
      by_cases hm : candMatch pfx v
      · simp only [hm, if_true]
        refine ⟨Nat.lt_succ_self key, hlt, ?_⟩
        rw [hdrop, List.filter_cons, hm]
        simp
      · simp only [hm, if_false, Bool.false_eq_true]
        have hrec := ih (key + 1) (by omega)
        have hfil : (entries.drop key).filter (fun v => candMatch pfx v) =
            (entries.drop (key + 1)).filter (fun v => candMatch pfx v) := by
          rw [hdrop, List.filter_cons]
          simp [hm]
        rcases h2 : iterStepAux f entries pfx (key + 1) with _ | ⟨k2, v2⟩
        · rw [h2] at hrec
          simpa [hfil] using hrec
        · rw [h2] at hrec
          obtain ⟨ha, hb, hc⟩ := hrec
          exact ⟨by omega, hb, by rw [hfil]; exact hc⟩

theorem stepLoopF_stepIter (entries : List Str) (pfx : Str) :
    ∀ fuel k c, c.iterSlot = some (.stepIter entries pfx (some k)) →
      entries.length + 1 - k ≤ fuel →
      (stepLoopF fuel c).1 = (entries.drop k).filter (fun v => candMatch pfx v) := by
  intro fuel
  induction fuel with
  | zero =>
    intro k c hc hk
    simp only [stepLoopF]
    rw [List.drop_of_length_le (by omega)]
    simp
  | succ f ih =>
    intro k c hc hk
    have hspec := iterStepAux_spec entries pfx (entries.length + 1) k (by omega)
    rcases h2 : iterStepAux (entries.length + 1) entries pfx k with _ | ⟨k2, v⟩
    · rw [h2] at hspec
      simp only [stepLoopF, lua_stepgenerator, hc, callIter, lua_iterstep, h2]
      exact hspec.symm
    · rw [h2] at hspec
      obtain ⟨ha, hb, hfil⟩ := hspec
      simp only [stepLoopF, lua_stepgenerator, hc, callIter, lua_iterstep, h2]
      rw [hfil]
      have hrec := ih k2
        { c with iterSlot := some (.stepIter entries pfx (some k2)),
                 hostCalls := c.hostCalls + 0 } rfl (by omega)
      rcases h3 : stepLoopF f
        { c with iterSlot := some (.stepIter entries pfx (some k2)),
                 hostCalls := c.hostCalls + 0 } with ⟨rest, c3⟩
      rw [h3] at hrec
      simpa using hrec

theorem stepLoopF_hostIter (outs : List Str) :
    ∀ fuel pos c, c.iterSlot = some (.hostIter outs pos) →
      pos ≤ outs.length →
      outs.length + 1 - pos ≤ fuel →
      (stepLoopF fuel c).1 = outs.drop pos ∧
      ((stepLoopF fuel c).2).iterSlot = some (.hostIter outs (outs.length + 1)) ∧
      ((stepLoopF fuel c).2).hostCalls = c.hostCalls + (outs.length + 1 - pos) := by
  intro fuel
  induction fuel with
  | zero =>
    intro pos c hc hpos hfuel
    omega
  | succ f ih =>
    intro pos c hc hpos hfuel
    rcases hv : outs.get? pos with _ | v
    · have hlen := get_none_le outs pos hv
      have hpe : pos = outs.length := by omega
      simp [stepLoopF, lua_stepgenerator, hc, callIter, hv, hpe]
    · have hlt := get_some_lt outs pos v hv
      have hrec := ih (pos + 1)
        { c with iterSlot := some (.hostIter outs (pos + 1)),
                 hostCalls := c.hostCalls + 1 } rfl (by omega) (by omega)
      rcases h3 : stepLoopF f
        { c with iterSlot := some (.hostIter outs (pos + 1)),
                 hostCalls := c.hostCalls + 1 } with ⟨rest, c3⟩
      rw [h3] at hrec
      obtain ⟨ha, hb, hd⟩ := hrec
      simp only [stepLoopF, lua_stepgenerator, hc, callIter, hv, h3]
      refine ⟨?_, hb, ?_⟩
      · rw [drop_of_get outs pos v hv]
        simpa using ha
      · simp at hd
        simp [hd]
        omega

/-- Claim C3: for every table completion source `entries` and every already
typed word `pfx`, one full generation (repeated candidate requests until
exhaustion) yields exactly the entries whose text passes the case-sensitive
test of `lua_iterstep` (length at least the word's, and starting with the
word), in the table's original order, each exactly once. -/
theorem readline_static_generation (entries : List Str) (pfx : Str) (c : CompState)
    (h : c.genSlot = some (.ipairsClosure entries)) :
    (runGeneration pfx c).1 = entries.filter (fun v => candMatch pfx v) := by
  have hspec := iterStepAux_spec entries pfx (entries.length + 1) 0 (by omega)
  rcases h2 : iterStepAux (entries.length + 1) entries pfx 0 with _ | ⟨k2, v⟩
  · rw [h2] at hspec
    simp only [List.drop_zero] at hspec
    simp [runGeneration, gen_function, lua_initgenerator, h, mkIterator,
      lua_stepgenerator, callIter, lua_iterstep, h2, hspec]
  · rw [h2] at hspec
    obtain ⟨ha, hb, hfil⟩ := hspec
    simp only [List.drop_zero] at hfil
    simp [runGeneration, gen_function, lua_initgenerator, h, mkIterator,
      lua_stepgenerator, callIter, lua_iterstep, h2, iterBudget, hfil]
    exact stepLoopF_stepIter entries pfx (entries.length + 2) k2 _ rfl (by omega)

/-- Claim C3 witness: a concrete table and word. -/
theorem readline_static_generation_witness :
    ((⟨some (.ipairsClosure [['a','b'],['x'],['a']]), none, 0⟩ : CompState).genSlot
      = some (GenSlot.ipairsClosure [['a','b'],['x'],['a']])) ∧
    (runGeneration ['a'] ⟨some (.ipairsClosure [['a','b'],['x'],['a']]), none, 0⟩).1
      = [['a','b'],['a']] :=
  ⟨rfl, readline_static_generation [['a','b'],['x'],['a']] ['a'] _ rfl⟩

/-- Claim C4: for a Callable completion source whose iterator produces the
values `a`, `b`, nil over its successive invocations, one generation yields
`a`, then `b`, then exhaustion.  The final closure position 3 records that
the iterator was invoked exactly three times — once per produced value,
nil included — and never again after it signalled exhaustion; the host-call
count rises by exactly 4 (one call of the generator itself plus the three
iterator calls).  The outputs are `a` and `b` verbatim for an arbitrary
word `pfx`, so the bridge applies no filtering of its own to the callable's
output. -/
theorem readline_callable_generation (f : Str → List Str) (pfx a b : Str)
    (c : CompState) (hf : f pfx = [a, b]) (hg : c.genSlot = some (.hostFn f)) :
    (runGeneration pfx c).1 = [a, b] ∧
    ((runGeneration pfx c).2).iterSlot = some (.hostIter [a, b] 3) ∧
    ((runGeneration pfx c).2).hostCalls = c.hostCalls + 4 := by
  have hloop := stepLoopF_hostIter [a, b] 4 1
    { genSlot := some (.hostFn f), iterSlot := some (.hostIter [a, b] 1),
      hostCalls := c.hostCalls + 1 + 1 } rfl (by simp) (by simp)
  rcases h3 : stepLoopF 4
    { genSlot := some (.hostFn f), iterSlot := some (.hostIter [a, b] 1),
      hostCalls := c.hostCalls + 1 + 1 } with ⟨rest, c3⟩
  rw [h3] at hloop
  obtain ⟨ha, hb, hd⟩ := hloop
  simp only at ha hb hd
  simp [runGeneration, gen_function, lua_initgenerator, hg, mkIterator, hf,
    lua_stepgenerator, callIter, iterBudget, h3]
  refine ⟨by simpa using ha, by simpa using hb, ?_⟩
  simp at hd
  simp [hd]

/-- Claim C4 witness: a concrete callable producing two values then nil. -/
theorem readline_callable_generation_witness :
    ((fun _ : Str => [['x'], ['y', 'z']]) ['p'] = [['x'], ['y', 'z']]) ∧
    ((⟨some (.hostFn (fun _ => [['x'], ['y', 'z']])), none, 0⟩ : CompState).genSlot
      = some (GenSlot.hostFn (fun _ => [['x'], ['y', 'z']]))) ∧
    (runGeneration ['p'] ⟨some (.hostFn (fun _ => [['x'], ['y', 'z']])), none, 0⟩).1
      = [['x'], ['y', 'z']] ∧
    ((runGeneration ['p']
        ⟨some (.hostFn (fun _ => [['x'], ['y', 'z']])), none, 0⟩).2).iterSlot
      = some (.hostIter [['x'], ['y', 'z']] 3) ∧
    ((runGeneration ['p']
        ⟨some (.hostFn (fun _ => [['x'], ['y', 'z']])), none, 0⟩).2).hostCalls
      = 0 + 4 := by
  have h := readline_callable_generation (fun _ => [['x'], ['y', 'z']]) ['p']
    ['x'] ['y', 'z'] ⟨some (.hostFn (fun _ => [['x'], ['y', 'z']])), none, 0⟩ rfl rfl
  exact ⟨rfl, rfl, h.1, h.2.1, h.2.2⟩

theorem runGeneration_nilIter (pfx : Str) (c : CompState)
    (h : c.genSlot = some .nilIter) :
    gen_function pfx 0 c = (none, { c with iterSlot := some .returnNil }) ∧
    runGeneration pfx c = ([], { c with iterSlot := some .returnNil }) := by
  constructor <;>
    simp [runGeneration, gen_function, lua_initgenerator, h, mkIterator,
      lua_stepgenerator, callIter]

/-- Claim C6: a generation begun with an Absent completion source (the
registry holds the `lua_niliterator` generator) signals exhaustion on the
very first candidate request, and no host callable is invoked at any point
of the generation. -/
theorem readline_absent_generation (pfx : Str) (c : CompState)
    (h : c.genSlot = some .nilIter) :
    (gen_function pfx 0 c).1 = none ∧
    (runGeneration pfx c).1 = [] ∧
    ((runGeneration pfx c).2).hostCalls = c.hostCalls := by
  obtain ⟨h1, h2⟩ := runGeneration_nilIter pfx c h
  exact ⟨by rw [h1], by rw [h2], by rw [h2]⟩

/-- Claim C6 witness: the absent source at a concrete word and state. -/
theorem readline_absent_generation_witness :
    ((⟨some .nilIter, none, 0⟩ : CompState).genSlot = some GenSlot.nilIter) ∧
    (gen_function ['w'] 0 ⟨some .nilIter, none, 0⟩).1 = none ∧
    (runGeneration ['w'] ⟨some .nilIter, none, 0⟩).1 = [] ∧
    ((runGeneration ['w'] ⟨some .nilIter, none, 0⟩).2).hostCalls = 0 := by
  have h := readline_absent_generation ['w'] ⟨some .nilIter, none, 0⟩ rfl
  exact ⟨rfl, h.1, h.2.1, h.2.2⟩

/-- Claim C10: a `readline` second argument that is neither a function nor a
table (nil, a string, a number, a boolean) makes the switch in
`lua_readline` install the empty generator, and every generation after that
install behaves exactly like an Absent source: exhaustion on the first
candidate request and no host-callable invocation. -/
theorem readline_nonsource_arg_empty (v : OtherVal) (pfx : Str) (c : CompState) :
    installGenerator (.other v) = GenSlot.nilIter ∧
    (gen_function pfx 0 { c with genSlot := some (installGenerator (.other v)) }).1
      = none ∧
    (runGeneration pfx { c with genSlot := some (installGenerator (.other v)) }).1
      = [] ∧
    ((runGeneration pfx { c with genSlot := some (installGenerator (.other v)) }).2
      ).hostCalls = c.hostCalls := by
  obtain ⟨h1, h2⟩ := runGeneration_nilIter pfx
    { c with genSlot := some (installGenerator (.other v)) } rfl
  exact ⟨rfl, by rw [h1], by rw [h2], by rw [h2]⟩

theorem lua_stepgenerator_genSlot (c : CompState) :
    ((lua_stepgenerator c).2).genSlot = c.genSlot := by
  rcases hc : c.iterSlot with _ | it
  · simp [lua_stepgenerator, hc]
  · rcases h : callIter it with ⟨r, it2, d⟩
    simp [lua_stepgenerator, hc, h]

theorem stepLoopF_genSlot : ∀ fuel c, ((stepLoopF fuel c).2).genSlot = c.genSlot := by
  intro fuel
  induction fuel with
  | zero => intro c; simp [stepLoopF]
  | succ f ih =>
    intro c
    rcases h : lua_stepgenerator c with ⟨r, c2⟩
    have hg : c2.genSlot = c.genSlot := by
      have h2 := lua_stepgenerator_genSlot c
      rw [h] at h2
      exact h2
    rcases r with _ | v
    · simp [stepLoopF, h, hg]
    · rcases h3 : stepLoopF f c2 with ⟨rest, c3⟩
      have h4 := ih c2
      rw [h3] at h4
      simp at h4
      simp [stepLoopF, h, h3]
      exact h4.trans hg

theorem lua_initgenerator_genSlot (text : Str) (c : CompState) :
    (lua_initgenerator text c).genSlot = c.genSlot := by
  rcases hc : c.genSlot with _ | gen
  · simp [lua_initgenerator, hc]
  · rcases h : mkIterator gen text with ⟨it, d⟩
    simp [lua_initgenerator, hc, h]

theorem runGeneration_genSlot (text : Str) (c : CompState) :
    ((runGeneration text c).2).genSlot = c.genSlot := by
  rcases h : gen_function text 0 c with ⟨r, c1⟩
  have h0 : c1.genSlot = c.genSlot := by
    have h2 := lua_stepgenerator_genSlot (lua_initgenerator text c)
    have h3 := lua_initgenerator_genSlot text c
    simp only [gen_function, if_pos] at h
    rw [h] at h2
    exact h2.trans h3
  rcases r with _ | v
  · simp [runGeneration, h, h0]
  · rcases h3 : stepLoopF (iterBudget c1.iterSlot) c1 with ⟨rest, c3⟩
    have h4 := stepLoopF_genSlot (iterBudget c1.iterSlot) c1
    rw [h3] at h4
    simp at h4
    simp [runGeneration, h, h3]
    exact h4.trans h0

theorem runTabs_genSlot : ∀ tabs c, (runTabs tabs c).genSlot = c.genSlot := by
  intro tabs
  induction tabs with
  | nil => intro c; simp [runTabs]
  | cons t rest ih =>
    intro c
    have h1 := ih ((runGeneration t c).2)
    have h2 := runGeneration_genSlot t c
    simpa [runTabs] using h1.trans h2

/-- Claim C7 counterexample: a concrete completed read.  Before the call
both registry slots are empty; after `lua_readline` returns normally (line
entered, one completion generation in between), the completion source and
the iterator installed by that call are still stored in the registry: they
are not discarded when the read completes. -/
theorem readline_state_persists_cex :
    ((lua_readline (.table [['a','b']]) (.normal [['a']] (some ['o','k']) false)
        ⟨⟨none, none, 0⟩, ⟨.sigDfl, 0, 0, []⟩, false, false⟩).2).comp.genSlot
      = some (GenSlot.ipairsClosure [['a','b']]) ∧
    ((lua_readline (.table [['a','b']]) (.normal [['a']] (some ['o','k']) false)
        ⟨⟨none, none, 0⟩, ⟨.sigDfl, 0, 0, []⟩, false, false⟩).2).comp.iterSlot
      = some (Iter.stepIter [['a','b']] ['a'] none) := by
  constructor <;> rfl

/-- Claim C7 amended: the completion source is installed fresh on every
`lua_readline` call — the registry slot afterwards holds exactly the
generator derived from this call's argument, whatever was stored before —
but it is not discarded when the read completes or is interrupted: the slot
still holds that generator after the call returns, until a later call
overwrites it. -/
theorem readline_registry_fresh_per_call (arg : LuaArg) (ev : ReadEvent)
    (g : GlobalState) :
    ((lua_readline arg ev g).2).comp.genSlot = some (installGenerator arg) := by
  rcases ev with ⟨tabs, line, eof⟩ | ⟨tabs, sig⟩ | tabs
  · rcases line with _ | l
    · cases eof <;> simp [lua_readline, runTabs_genSlot]
    · simp [lua_readline, runTabs_genSlot]
  · by_cases hd : (g.sig.disposition ≠ Disp.sigDfl ∧ g.sig.disposition ≠ Disp.sigErr ∧
        g.sig.disposition ≠ Disp.sigIgn) <;>
      simp [lua_readline, hd, runTabs_genSlot]
  · simp [lua_readline, runTabs_genSlot]

/-- Claim C1: when SIGINT is delivered while the blocking read is in
flight, `lua_readline` returns the no-input result, `rl_free_line_state`
and `rl_cleanup_after_signal` are each invoked exactly once, the SIGINT
disposition is restored to its pre-read value, and, exactly when the saved
handler is neither `SIG_DFL` nor `SIG_ERR` nor `SIG_IGN`, that handler is
invoked exactly once with the delivered signal number. -/
theorem readline_interrupt_protocol (arg : LuaArg) (tabs : List Str) (sig : Nat)
    (g : GlobalState) (hs : sig ≠ 0) :
    (lua_readline arg (.interrupted tabs sig) g).1 = .result none ∧
    ((lua_readline arg (.interrupted tabs sig) g).2).sig.freeLineStateCalls
      = g.sig.freeLineStateCalls + 1 ∧
    ((lua_readline arg (.interrupted tabs sig) g).2).sig.cleanupAfterSignalCalls
      = g.sig.cleanupAfterSignalCalls + 1 ∧
    ((lua_readline arg (.interrupted tabs sig) g).2).sig.disposition
      = g.sig.disposition ∧
    ((lua_readline arg (.interrupted tabs sig) g).2).sig.handlerCalls
      = g.sig.handlerCalls ++
        (if g.sig.disposition ≠ Disp.sigDfl ∧ g.sig.disposition ≠ Disp.sigErr ∧
            g.sig.disposition ≠ Disp.sigIgn
         then [(g.sig.disposition, sig)] else []) := by
  by_cases hd : (g.sig.disposition ≠ Disp.sigDfl ∧ g.sig.disposition ≠ Disp.sigErr ∧
      g.sig.disposition ≠ Disp.sigIgn)
  · refine ⟨?_, ?_, ?_, ?_, ?_⟩ <;> simp [lua_readline, hs, hd]
  · refine ⟨?_, ?_, ?_, ?_, ?_⟩ <;> simp [lua_readline, hs, hd]

/-- Claim C1 witness: SIGINT 2 delivered while a custom handler was saved. -/
theorem readline_interrupt_protocol_witness :
    ((2 : Nat) ≠ 0) ∧
    (lua_readline (.other .nilVal) (.interrupted [] 2)
        ⟨⟨none, none, 0⟩, ⟨.custom 7, 0, 0, []⟩, false, false⟩).1 = .result none ∧
    ((lua_readline (.other .nilVal) (.interrupted [] 2)
        ⟨⟨none, none, 0⟩, ⟨.custom 7, 0, 0, []⟩, false, false⟩).2
      ).sig.freeLineStateCalls = 1 ∧
    ((lua_readline (.other .nilVal) (.interrupted [] 2)
        ⟨⟨none, none, 0⟩, ⟨.custom 7, 0, 0, []⟩, false, false⟩).2
      ).sig.cleanupAfterSignalCalls = 1 ∧
    ((lua_readline (.other .nilVal) (.interrupted [] 2)
        ⟨⟨none, none, 0⟩, ⟨.custom 7, 0, 0, []⟩, false, false⟩).2
      ).sig.disposition = Disp.custom 7 ∧
    ((lua_readline (.other .nilVal) (.interrupted [] 2)
        ⟨⟨none, none, 0⟩, ⟨.custom 7, 0, 0, []⟩, false, false⟩).2
      ).sig.handlerCalls = [(Disp.custom 7, 2)] :=
  ⟨by decide, readline_interrupt_protocol (.other .nilVal) [] 2
    ⟨⟨none, none, 0⟩, ⟨.custom 7, 0, 0, []⟩, false, false⟩ (by decide)⟩

/-- Claim C2 amended: the pre-read SIGINT disposition is restored on the
normal exit paths (line entered, end-of-stream, defensive NULL fallback)
and on the interrupted exit path; it is not restored when a host completion
callable raises an error while the read is in flight, because the Lua error
unwinds past the restore (see the counterexample). -/
theorem readline_restores_disposition (arg : LuaArg) (g : GlobalState)
    (tabs : List Str) (line : Option Str) (eof : Bool) (sig : Nat) :
    ((lua_readline arg (.normal tabs line eof) g).2).sig.disposition
      = g.sig.disposition ∧
    ((lua_readline arg (.interrupted tabs sig) g).2).sig.disposition
      = g.sig.disposition := by
  constructor
  · rcases line with _ | l
    · cases eof <;> simp [lua_readline]
    · simp [lua_readline]
  · by_cases hd : (g.sig.disposition ≠ Disp.sigDfl ∧ g.sig.disposition ≠ Disp.sigErr ∧
        g.sig.disposition ≠ Disp.sigIgn) <;>
      simp [lua_readline, hd]

/-- Claim C2 counterexample: a reachable run whose completion source is a
host function, so a host callable does run during completion; it raises a
Lua error while the read is in flight (the user asked for a completion and
the callable failed).  The error propagates out of `lua_readline` through
the runtime's non-local jump before `signal(SIGINT, old_sigint)` at
readline.c line 222 can run, so the pre-read disposition (here `SIG_DFL`)
is not restored on that exit path. -/
theorem readline_hosterror_no_restore_cex :
    ((lua_readline (.fn (fun _ => [['x']])) (.hostError [])
        ⟨⟨none, none, 0⟩, ⟨.sigDfl, 0, 0, []⟩, false, false⟩).2).sig.disposition
      ≠ (⟨⟨none, none, 0⟩, ⟨.sigDfl, 0, 0, []⟩, false, false⟩
          : GlobalState).sig.disposition := by
  decide

/-- Claim C5: when the native blocking read returns the NULL sentinel, the
Lua caller observes the no-input result both when the input stream reports
end-of-stream (the `return 0` path) and when it does not (the fallthrough
path, where `lua_pushstring(L, NULL)` pushes nil): the defensive fallback
is observably the same None outcome. -/
theorem readline_null_line_result (arg : LuaArg) (tabs : List Str) (g : GlobalState) :
    (lua_readline arg (.normal tabs none true) g).1 = .result none ∧
    (lua_readline arg (.normal tabs none false) g).1 = .result none := by
  constructor <;> simp [lua_readline, lua_pushstring]

theorem find_eq_none_of_all (N : Nat) :
    ∀ l : List (Nat × Str), (∀ q ∈ l, q.1 ≠ N) →
      l.find? (fun q => q.1 == N) = none := by
  intro l
  induction l with
  | nil => intro h; rfl
  | cons a t ih =>
    intro h
    have ha : (a.1 == N) = false := by
      simpa using h a (by simp)
    have ht := ih (fun q hq => h q (by simp [hq]))
    simp [List.find?, ha, ht]

theorem heap_find_last (N : Nat) (s : Str) :
    ∀ l : List (Nat × Str), (∀ q ∈ l, q.1 ≠ N) →
      (l ++ [(N, s)]).find? (fun q => q.1 == N) = some (N, s) := by
  intro l
  induction l with
  | nil => simp [List.find?]
  | cons a t ih =>
    intro h
    have ha : (a.1 == N) = false := by
      simpa using h a (by simp)
    have ht := ih (fun q hq => h q (by simp [hq]))
    simp [List.find?, ha, ht]

theorem lua_setname_ok_spec (name : Str) (st : NameState) :
    ∃ H0, (∀ q ∈ H0, q ∈ st.heap) ∧
      (∀ p, st.rl_readline_name = some p → ∀ q ∈ H0, q.1 ≠ p) ∧
      (lua_setname name true st).1 = SetNameResult.ok ∧
      ((lua_setname name true st).2).heap = H0 ++ [(st.nextAddr, name)] ∧
      ((lua_setname name true st).2).nextAddr = st.nextAddr + 1 ∧
      ((lua_setname name true st).2).rl_readline_name = some st.nextAddr := by
  rcases h0 : st.rl_readline_name with _ | p
  · refine ⟨st.heap, fun q hq => hq, ?_, ?_, ?_, ?_, ?_⟩ <;>
      simp [lua_setname, h0, clonestr]
  · refine ⟨st.heap.filter (fun q => !(q.1 == p)), ?_, ?_, ?_, ?_, ?_, ?_⟩
    · intro q hq
      exact (List.mem_filter.mp hq).1
    · intro p2 hp2 q hq
      have he : p2 = p := (Option.some.inj hp2).symm
      subst he
      have := (List.mem_filter.mp hq).2
      simpa using this
    · simp [lua_setname, h0, clonestr, heapFree]
    · simp [lua_setname, h0, clonestr, heapFree]
    · simp [lua_setname, h0, clonestr, heapFree]
    · simp [lua_setname, h0, clonestr, heapFree]

/-- Claim C8: setting the application name and reading it back returns the
name just set; a second `lua_setname` releases the storage of the first
value (its block is gone from the heap afterwards) and `lua_getname`
reflects the new value. -/
theorem setname_then_getname (name1 name2 : Str) (st : NameState)
    (hwf : heapWF st) :
    (lua_setname name1 true st).1 = SetNameResult.ok ∧
    lua_getname (lua_setname name1 true st).2 = some name1 ∧
    (lua_setname name2 true (lua_setname name1 true st).2).1 = SetNameResult.ok ∧
    lua_getname (lua_setname name2 true (lua_setname name1 true st).2).2
      = some name2 ∧
    heapGet (lua_setname name2 true (lua_setname name1 true st).2).2 st.nextAddr
      = none := by
  obtain ⟨H0, hmem0, hfree0, r1, hh1, hn1, hp1⟩ := lua_setname_ok_spec name1 st
  have hlt0 : ∀ q ∈ H0, q.1 < st.nextAddr := fun q hq => hwf q (hmem0 q hq)
  obtain ⟨H1, hmem1, hfree1, r2, hh2, hn2, hp2⟩ :=
    lua_setname_ok_spec name2 (lua_setname name1 true st).2
  have hlt1 : ∀ q ∈ H1, q.1 < st.nextAddr + 1 := by
    intro q hq
    have hq2 := hmem1 q hq
    rw [hh1] at hq2
    rcases List.mem_append.mp hq2 with hq3 | hq3
    · exact Nat.lt_succ_of_lt (hlt0 q hq3)
    · have : q = (st.nextAddr, name1) := by simpa using hq3
      simp [this]
  have hne1 : ∀ q ∈ H1, q.1 ≠ st.nextAddr := fun q hq =>
    hfree1 st.nextAddr hp1 q hq
  refine ⟨r1, ?_, r2, ?_, ?_⟩
  · simp only [lua_getname, hp1, heapGet, hh1]
    rw [heap_find_last st.nextAddr name1 H0
      (fun q hq => Nat.ne_of_lt (hlt0 q hq))]
    rfl
  · simp only [lua_getname, hp2, hn1, heapGet, hh2]
    rw [heap_find_last (st.nextAddr + 1) name2 H1
      (fun q hq => Nat.ne_of_lt (hlt1 q hq))]
    rfl
  · have hall : ∀ q ∈ H1 ++ [(st.nextAddr + 1, name2)], q.1 ≠ st.nextAddr := by
      intro q hq
      rcases List.mem_append.mp hq with hq2 | hq2
      · exact hne1 q hq2
      · have he : q = (st.nextAddr + 1, name2) := by simpa using hq2
        simp [he]
    simp only [heapGet, hh2, hn1]
    rw [find_eq_none_of_all st.nextAddr (H1 ++ [(st.nextAddr + 1, name2)]) hall]
    rfl

/-- Claim C8 witness: an initially empty name state. -/
theorem setname_then_getname_witness :
    heapWF ⟨[], 0, none⟩ ∧
    ((lua_setname ['r','e','p','l'] true ⟨[], 0, none⟩).1 = SetNameResult.ok ∧
     lua_getname (lua_setname ['r','e','p','l'] true ⟨[], 0, none⟩).2
       = some ['r','e','p','l'] ∧
     (lua_setname ['n','u'] true
        (lua_setname ['r','e','p','l'] true ⟨[], 0, none⟩).2).1
       = SetNameResult.ok ∧
     lua_getname (lua_setname ['n','u'] true
        (lua_setname ['r','e','p','l'] true ⟨[], 0, none⟩).2).2
       = some ['n','u'] ∧
     heapGet (lua_setname ['n','u'] true
        (lua_setname ['r','e','p','l'] true ⟨[], 0, none⟩).2).2 0
       = none) :=
  ⟨by simp [heapWF],
   setname_then_getname ['r','e','p','l'] ['n','u'] ⟨[], 0, none⟩
     (by simp [heapWF])⟩

/-- Claim C9 (code bug evidence): when the allocation for the name copy
fails, `lua_setname` does not raise the "Out of memory" Lua error that its
own `if (!rl_readline_name)` check intends: `clonestr` hands the NULL
result of `malloc` to `strlcpy` as the destination with size
`strlen(name)+1 >= 1`, which writes the terminating NUL through the null
pointer.  The crash happens before the check can run, so the error branch
is unreachable. -/
theorem lua_setname_allocfail_crashes (name : Str) (st : NameState) :
    (lua_setname name false st).1 = SetNameResult.crash ∧
    (lua_setname name false st).1 ≠ SetNameResult.luaError := by
  rcases h0 : st.rl_readline_name with _ | p <;>
    simp [lua_setname, h0, clonestr]
